import Mathlib

/-!
Verification of the DevSteward AI analysis-to-execution pipeline.

The repository ships the Vue front end (the `appStore` Pinia store and the
organizer components) but not the Python backend that implements the core
pipeline (Scanner, Heuristic Classifier, Model Classifier, Classification
Arbiter, Plan Generator, Executor); only its callers, planning documents and
REST surface are present.  Definitions for the missing backend are therefore
modelled from the specification and are marked `Modelled from the spec:` in
their doc comments.  Front-end functions (`executeOrganization`,
`previewOrganization`, `formatBytes`, the organization-settings form defaults)
are embedded directly from the Vue/TypeScript source.

Confidences are rational numbers; machine floats of the source are idealised
as exact arithmetic.  Filesystem state is an association list from paths to
contents; the Executor is given explicit success oracles for its copy-verify
and delete steps so that crash/failure scenarios are expressible.
-/

namespace DevSteward

/-! ## Classification data model (spec section 3) -/

/-- Provenance of a classification, spec section 3: heuristic, model or hybrid. -/
inductive Method where
  | heuristic
  | model
  | hybrid
deriving DecidableEq, Repr

/-- Modelled from the spec: the `Classification` record of spec section 3
(category, confidence in [0,1], reasoning, method, optional suggested name);
it also matches the `ClassificationResult` interface of the front-end store. -/
structure Classification where
  category : String
  confidence : ℚ
  reasoning : String
  method : Method
  suggested_name : Option String
deriving DecidableEq, Repr

/-- Modelled from the spec: the `ScanResult` snapshot of spec section 3: root
path, file and directory totals, extension histogram, detected marker
filenames, bounded readme excerpt, and the partial-traversal flag of
section 4.1.  Field names follow the front-end `ScanResponse` interface. -/
structure ScanResult where
  path : String
  total_files : ℕ
  total_directories : ℕ
  file_extensions : List (String × ℕ)
  key_files : List String
  readme_excerpt : String
  partial_result : Bool
deriving DecidableEq, Repr

/-- Closed category taxonomy, as listed by the organization-settings form
(`OrganizationSettings.vue`) and planning schema section V. -/
def taxonomy : List String :=
  ["Web/Frontend", "Web/Backend", "Web/FullStack", "Mobile/CrossPlatform",
   "SystemUtilities/Python", "SystemUtilities/Rust", "SystemUtilities/Go",
   "Games/Unity", "Games/Godot", "Libraries/Python", "Libraries/JavaScript",
   "DataScience", "Misc"]

/-- Association-list lookup with decidable string keys, used for the fixed
marker and extension tables (spec section 4.1: a fixed lookup table checked
case-sensitively). -/
def lookupTable : List (String × String) → String → Option String
  | [], _ => none
  | (k, v) :: rest, key => if k = key then some v else lookupTable rest key

/-- Modelled from the spec: the fixed marker-file lookup table of spec
section 4.1 (filename to technology hint); entries follow planning section IV
("package.json, Cargo.toml, etc.") and the taxonomy. -/
def markerTable : List (String × String) :=
  [("package.json", "Web/Frontend"),
   ("Cargo.toml", "SystemUtilities/Rust"),
   ("go.mod", "SystemUtilities/Go"),
   ("requirements.txt", "SystemUtilities/Python"),
   ("pyproject.toml", "Libraries/Python"),
   ("Dockerfile", "Web/Backend")]

/-- Modelled from the spec: extension-to-category hints used by the
extension-majority vote of spec section 4.2. -/
def extCategoryTable : List (String × String) :=
  [("py", "SystemUtilities/Python"),
   ("rs", "SystemUtilities/Rust"),
   ("go", "SystemUtilities/Go"),
   ("js", "Web/Frontend"),
   ("ts", "Web/Frontend"),
   ("vue", "Web/Frontend"),
   ("ipynb", "DataScience")]

/-! ## Heuristic Classifier (spec section 4.2) -/

/-- Largest-count entry of a histogram (the majority extension). -/
def maxCountEntry : List (String × ℕ) → Option (String × ℕ)
  | [] => none
  | e :: rest =>
    match maxCountEntry rest with
    | none => some e
    | some m => if m.2 ≤ e.2 then some e else some m

/-- Modelled from the spec: the Heuristic Classifier of spec section 4.2, a
pure total function from `ScanResult` to `Classification` with method
`heuristic`.  Rule order is deterministic: a single recognized marker file
first (confidence 0.85, above the promised 0.8 floor), then
extension-majority voting over extensions with a category hint (confidence
scaled by the majority share of total files), then the fallback category
`Misc` with confidence 0. -/
def heuristicClassify (sr : ScanResult) : Classification :=
  match sr.key_files.filterMap (fun m => lookupTable markerTable m) with
  | [c] =>
    { category := c, confidence := 85 / 100,
      reasoning := "single unambiguous marker file", method := .heuristic,
      suggested_name := none }
  | _ =>
    match maxCountEntry (sr.file_extensions.filter
        (fun e => (lookupTable extCategoryTable e.1).isSome)) with
    | some (ext, cnt) =>
      match lookupTable extCategoryTable ext with
      | some c =>
        { category := c, confidence := (cnt : ℚ) / (sr.total_files : ℚ),
          reasoning := "extension majority vote", method := .heuristic,
          suggested_name := none }
      | none =>
        { category := "Misc", confidence := 0, reasoning := "no signal",
          method := .heuristic, suggested_name := none }
    | none =>
      { category := "Misc", confidence := 0, reasoning := "no signal",
        method := .heuristic, suggested_name := none }

/-! ## Classification Arbiter (spec section 4.4) -/

/-- Acceptance threshold for model classifications, spec section 4.4 and the
configuration default (0.7). -/
def acceptanceThreshold : ℚ := 7 / 10

/-- Modelled from the spec: the Classification Arbiter policy of spec
section 4.4.  No model result: return the heuristic result unchanged.  Model
result at or above the threshold: return it.  Below threshold: return the
heuristic result with the model reasoning and suggested name merged as
supplementary fields and method `hybrid`; the confidence is the heuristic
confidence, never boosted. -/
def arbiter (threshold : ℚ) (h : Classification) (m : Option Classification) :
    Classification :=
  match m with
  | none => h
  | some mc =>
    if threshold ≤ mc.confidence then mc
    else
      { h with method := .hybrid,
               reasoning := h.reasoning ++ " / model: " ++ mc.reasoning,
               suggested_name := mc.suggested_name.orElse fun _ => h.suggested_name }

/-! ## Scanner (spec sections 4.1 and 5) -/

/-- One filesystem entry visited by the Scanner's traversal.  Spec section 5
states the order of file visitation is irrelevant to the result, so the
traversal is modelled as the list of visited entries. -/
structure FileEntry where
  name : String
  isDir : Bool
  size : ℕ
deriving DecidableEq, Repr

/-- Extension of a reversed character list: the characters before the last
dot, still reversed; `none` when the name has no dot. -/
def extOfRev : List Char → Option (List Char)
  | [] => none
  | c :: cs => if c = '.' then some [] else (extOfRev cs).map (fun l => c :: l)

/-- File extension of a filename: the part after the last dot, or the empty
string for extensionless names, so that every file falls in some histogram
bucket. -/
def extOf (name : String) : String :=
  match extOfRev name.data.reverse with
  | some l => String.mk l.reverse
  | none => ""

/-- Bump the count of a key in an extension histogram by one, inserting the
key when absent. -/
def bumpHist : List (String × ℕ) → String → List (String × ℕ)
  | [], key => [(key, 1)]
  | (k, n) :: rest, key =>
    if k = key then (k, n + 1) :: rest else (k, n) :: bumpHist rest key

/-- Total of all occurrence counts in a histogram. -/
def histSum (h : List (String × ℕ)) : ℕ := (h.map (fun e => e.2)).sum

/-- Modelled from the spec: the Scanner of spec section 4.1 walking the given
visited entries of a directory: it counts files and directories, builds the
extension histogram over every file, detects marker filenames against the
fixed table, and keeps a bounded readme excerpt. -/
def scanEntries (root : String) (entries : List FileEntry) (readme : String)
    (isPartial : Bool) : ScanResult :=
  match entries with
  | [] =>
    { path := root, total_files := 0, total_directories := 0,
      file_extensions := [], key_files := [], readme_excerpt := readme.take 1000,
      partial_result := isPartial }
  | e :: rest =>
    let sr := scanEntries root rest readme isPartial
    if e.isDir then
      { sr with total_directories := sr.total_directories + 1 }
    else
      { sr with total_files := sr.total_files + 1,
                file_extensions := bumpHist sr.file_extensions (extOf e.name),
                key_files :=
                  if (lookupTable markerTable e.name).isSome then
                    e.name :: sr.key_files
                  else sr.key_files }

/-! ## Scan pipeline and model-failure fallback (spec sections 4.3, 4.4, 7) -/

/-- Errors of the Model Classifier, spec section 4.3. -/
inductive ModelError where
  | inferenceTimeout
  | inferenceUnavailable
  | invalidResponse
deriving DecidableEq, Repr

/-- Errors of the Scanner, spec section 4.1. -/
inductive ScanError where
  | pathNotFound
  | permissionDenied
  | notADirectory
deriving DecidableEq, Repr

/-- Outcome of the model-classification stage as seen by the Arbiter: not
requested, failed with a model error, or a parsed classification. -/
inductive ModelOutcome where
  | notRequested
  | failed (e : ModelError)
  | ok (c : Classification)
deriving DecidableEq, Repr

/-- Complete result of one scan request, following the front-end
`ScanResponse` interface: the scan snapshot, both classifier outputs and the
Arbiter's final classification. -/
structure ScanOutcome where
  scan : ScanResult
  heuristic_classification : Classification
  ai_classification : Option Classification
  final_classification : Classification
deriving DecidableEq, Repr

/-- Modelled from the spec: the classification half of the `scan` operation
(spec sections 4.4 and 7).  Transient and data errors of the Model Classifier
are recovered locally: the Arbiter is given no model result and falls back to
the heuristic classification; they are never propagated as scan failures. -/
def classifyStage (sr : ScanResult) (m : ModelOutcome) : ScanOutcome :=
  let h := heuristicClassify sr
  match m with
  | .notRequested =>
    { scan := sr, heuristic_classification := h, ai_classification := none,
      final_classification := arbiter acceptanceThreshold h none }
  | .failed _ =>
    { scan := sr, heuristic_classification := h, ai_classification := none,
      final_classification := arbiter acceptanceThreshold h none }
  | .ok c =>
    { scan := sr, heuristic_classification := h, ai_classification := some c,
      final_classification := arbiter acceptanceThreshold h (some c) }

/-- Modelled from the spec: the `scan` operation of spec section 6.  Scanner
errors are input errors and propagate; once the Scanner has produced a
`ScanResult`, classification always completes (model failures are recovered
by `classifyStage`). -/
def scanOp (scanned : Except ScanError ScanResult) (m : ModelOutcome) :
    Except ScanError ScanOutcome :=
  match scanned with
  | .error e => .error e
  | .ok sr => .ok (classifyStage sr m)

/-! ## Executor (spec section 4.6)

Filesystem state is an association list from paths to contents (a content is
abstracted as a natural number); `FS.find` returns the first binding.  The
environment's copy-verification and delete outcomes are supplied as oracles
indexed by operation position, so that failures at any point of either pass
are expressible. -/

/-- Filesystem state: finite map from paths to file contents. -/
abbrev FS := List (String × ℕ)

/-- Content stored at a path, or `none` when the path does not exist. -/
def FS.find : FS → String → Option ℕ
  | [], _ => none
  | (q, c) :: fs, p => if q = p then some c else FS.find fs p

/-- Write a content at a path (creating or overwriting it). -/
def FS.set (fs : FS) (p : String) (c : ℕ) : FS := (p, c) :: fs

/-- Delete a path. -/
def FS.del : FS → String → FS
  | [], _ => []
  | e :: fs, p => if e.1 = p then FS.del fs p else e :: FS.del fs p

/-- One executable unit of file movement: source and target path. -/
structure ExecOp where
  src : String
  tgt : String
deriving DecidableEq, Repr

/-- States reached while the targets of the given operations are deleted one
by one (used both for rollback and as trace of the rollback steps). -/
def delTargetsTrace : FS → List ExecOp → List FS
  | _, [] => []
  | fs, o :: rest => FS.del fs o.tgt :: delTargetsTrace (FS.del fs o.tgt) rest

/-- Modelled from the spec: rollback of spec section 4.6 step 2: delete the
copies made by the previously completed operations, in reverse completion
order, leaving originals untouched. -/
def rollback (fs : FS) (done : List ExecOp) : FS :=
  (delTargetsTrace fs done.reverse).getLastD fs

/-- Modelled from the spec: pass one of the Executor protocol (spec
section 4.6 steps 1-2).  Operations are processed in plan order; each source
is copied to its target and the copy verified (the oracle `ok` reports
verification success; a missing source also fails).  On the first failure the
pass stops, rolls back every previously completed copy and reports failure.
Returns the filesystem, the completed operations in order, and the success
flag. -/
def copyPass (ok : ℕ → Bool) : FS → List ExecOp → ℕ → List ExecOp →
    FS × List ExecOp × Bool
  | fs, [], _, done => (fs, done, true)
  | fs, op :: rest, i, done =>
    match FS.find fs op.src, ok i with
    | some c, true => copyPass ok (FS.set fs op.tgt c) rest (i + 1) (done ++ [op])
    | _, _ => (rollback fs done, done, false)

/-- Modelled from the spec: pass two of the Executor protocol (spec
section 4.6 steps 3-4): delete the original source paths in plan order; a
failed deletion (oracle `delOk` false) is skipped and reported as a warning,
and the pass continues. -/
def deletePass (delOk : ℕ → Bool) : FS → List ExecOp → ℕ → FS × List String
  | fs, [], _ => (fs, [])
  | fs, op :: rest, i =>
    if delOk i then deletePass delOk (FS.del fs op.src) rest (i + 1)
    else
      let r := deletePass delOk fs rest (i + 1)
      (r.1, op.src :: r.2)

/-- Overall status of one Executor run, spec sections 4.6 and 3. -/
inductive RunStatus where
  | completed
  | completedWithWarnings
  | failed
deriving DecidableEq, Repr

/-- Modelled from the spec: the `ExecutionManifest` of spec section 3,
restricted to what the run reports: overall status, un-deleted source
warnings, and the source-target mappings of the completed copy operations
(enough to reverse every completed step). -/
structure ExecutionManifest where
  status : RunStatus
  warnings : List String
  copied : List ExecOp
deriving DecidableEq, Repr

/-- Modelled from the spec: the two-pass Executor of spec section 4.6: pass
one copies and verifies every operation (rolling back on failure); only when
every operation copy-verified does pass two delete the original sources.
Failed deletions downgrade the status to completed-with-warnings. -/
def executeOps (fs : FS) (ops : List ExecOp) (ok delOk : ℕ → Bool) :
    FS × ExecutionManifest :=
  let c := copyPass ok fs ops 0 []
  if c.2.2 then
    let d := deletePass delOk c.1 ops 0
    (d.1,
     { status := if d.2.isEmpty then .completed else .completedWithWarnings,
       warnings := d.2, copied := c.2.1 })
  else
    (c.1, { status := .failed, warnings := [], copied := c.2.1 })

/-- States passed through during pass one, including every intermediate
rollback state after a failure. -/
def copyTrace (ok : ℕ → Bool) : FS → List ExecOp → ℕ → List ExecOp → List FS
  | _, [], _, _ => []
  | fs, op :: rest, i, done =>
    match FS.find fs op.src, ok i with
    | some c, true =>
      FS.set fs op.tgt c :: copyTrace ok (FS.set fs op.tgt c) rest (i + 1) (done ++ [op])
    | _, _ => delTargetsTrace fs done.reverse

/-- States passed through during pass two. -/
def deleteTrace (delOk : ℕ → Bool) : FS → List ExecOp → ℕ → List FS
  | _, [], _ => []
  | fs, op :: rest, i =>
    if delOk i then FS.del fs op.src :: deleteTrace delOk (FS.del fs op.src) rest (i + 1)
    else deleteTrace delOk fs rest (i + 1)

/-- Every filesystem state reached during one Executor run: the initial
state, each state of pass one (copies and rollback steps), and, when pass one
succeeded, each state of pass two. -/
def execTrace (fs : FS) (ops : List ExecOp) (ok delOk : ℕ → Bool) : List FS :=
  fs :: copyTrace ok fs ops 0 [] ++
    (if (copyPass ok fs ops 0 []).2.2 then
      deleteTrace delOk (copyPass ok fs ops 0 []).1 ops 0
    else [])

/-! ## The `execute` operation (spec sections 5 and 6) -/

/-- A generated plan as retained by the core, with its one-shot executed
flag (spec section 5). -/
structure StoredPlan where
  ops : List ExecOp
  executed : Bool
deriving DecidableEq, Repr

/-- Errors of the `execute` operation, spec sections 6 and 7. -/
inductive ExecError where
  | confirmationRequired
  | planNotFound
  | planAlreadyExecuted
deriving DecidableEq, Repr

/-- System state seen by the `execute` operation: the filesystem and the
retained plans by identifier. -/
structure SysState where
  fs : FS
  plans : List (String × StoredPlan)
deriving DecidableEq, Repr

/-- Retained plan with the given identifier, if any. -/
def findPlan : List (String × StoredPlan) → String → Option StoredPlan
  | [], _ => none
  | (k, v) :: rest, key => if k = key then some v else findPlan rest key

/-- Set the executed flag of the plan with the given identifier. -/
def markExecuted : List (String × StoredPlan) → String → List (String × StoredPlan)
  | [], _ => []
  | (k, v) :: rest, key =>
    if k = key then (k, { v with executed := true }) :: rest
    else (k, v) :: markExecuted rest key

/-- Modelled from the spec: the `execute(planId, confirm)` operation of spec
section 6: confirmation must be explicitly true, and an absent or false
confirmation is rejected without side effects, before the plan is even looked
up; then the one-shot executed flag is checked and set and the two-pass
Executor runs. -/
def executeApi (st : SysState) (planId : String) (confirm : Option Bool)
    (ok delOk : ℕ → Bool) : Except ExecError ExecutionManifest × SysState :=
  match confirm with
  | some true =>
    match findPlan st.plans planId with
    | none => (.error .planNotFound, st)
    | some plan =>
      if plan.executed then (.error .planAlreadyExecuted, st)
      else
        let r := executeOps st.fs plan.ops ok delOk
        (.ok r.2, { fs := r.1, plans := markExecuted st.plans planId })
  | _ => (.error .confirmationRequired, st)

/-! ## Decimal rendering for rename suffixes -/

/-- Character of one decimal digit (callers pass values below ten). -/
def digitChar : ℕ → Char
  | 0 => '0'
  | 1 => '1'
  | 2 => '2'
  | 3 => '3'
  | 4 => '4'
  | 5 => '5'
  | 6 => '6'
  | 7 => '7'
  | 8 => '8'
  | _ => '9'

/-- Little-endian decimal digits of `n`, with explicit fuel so the definition
is structurally recursive (fuel `n` suffices). -/
def digitsRevFuel : ℕ → ℕ → List Char
  | 0, _ => []
  | fuel + 1, n =>
    if n = 0 then [] else digitChar (n % 10) :: digitsRevFuel fuel (n / 10)

/-- Decimal rendering of a natural number. -/
def natToStr (n : ℕ) : String :=
  if n = 0 then "0" else String.mk (digitsRevFuel n n).reverse

/-- Numeric value of one decimal digit character. -/
def digitVal (c : Char) : ℕ := c.toNat - 48

/-- Value of a little-endian decimal digit list. -/
def digitsVal : List Char → ℕ
  | [] => 0
  | c :: cs => digitVal c + 10 * digitsVal cs

/-- Inverse of `natToStr`, used to prove it injective. -/
def decodeStr (s : String) : ℕ := digitsVal s.data.reverse

/-- A destination name carrying the numeric rename suffix `i`. -/
def suffixName (base : String) (i : ℕ) : String := base ++ "-" ++ natToStr i

/-- Modelled from the spec: conflict resolution `rename` of spec section 4.5:
append a numeric suffix, counting up from 1, until a free name is found.  The
search range `1 .. length existing + 1` always contains a free name; the
fallback branch of the match is unreachable. -/
def findFreeName (existing : List String) (base : String) : String :=
  match (List.range' 1 (existing.length + 1)).find?
      (fun i => decide (suffixName base i ∉ existing)) with
  | some i => suffixName base i
  | none => suffixName base (existing.length + 1)

/-! ## Plan Generator (spec section 4.5) -/

/-- Splits a character list at slashes; `acc` holds the current segment
reversed. -/
def splitSlashAux : List Char → List Char → List String
  | [], acc => [String.mk acc.reverse]
  | c :: cs, acc =>
    if c = '/' then String.mk acc.reverse :: splitSlashAux cs []
    else splitSlashAux cs (c :: acc)

/-- Slash-separated segments of a path. -/
def splitSlash (s : String) : List String := splitSlashAux s.data []

/-- Joins segments with slashes. -/
def joinSlash : List String → String
  | [] => ""
  | [s] => s
  | s :: t :: rest => s ++ "/" ++ joinSlash (t :: rest)

/-- Characters stripped by project-name sanitization (path-unsafe). -/
def pathUnsafeChar (c : Char) : Bool :=
  c == '/' || c == '\\' || c == ':' || c == '*' || c == '?' || c == '\"' ||
    c == '<' || c == '>' || c == '|'

/-- Modelled from the spec: name sanitization of spec section 4.5: strip
path-unsafe characters and trim length. -/
def sanitizeName (s : String) : String :=
  String.mk ((s.data.filter (fun c => !(pathUnsafeChar c))).take 64)

/-- Last path component of a source path. -/
def lastComponent (s : String) : String := (splitSlash s).getLastD s

/-- Conflict-resolution strategies of spec section 3, matching the
`conflictOptions` values of the organization-settings form. -/
inductive ConflictStrategy where
  | rename
  | skip
  | overwrite
deriving DecidableEq, Repr

/-- Wire name of a strategy, as in the `conflictOptions` values. -/
def strategyName : ConflictStrategy → String
  | .rename => "rename"
  | .skip => "skip"
  | .overwrite => "overwrite"

/-- Preview options of the `preview` operation, spec section 6. -/
structure PlanOptions where
  category_override : Option String
  conflict_strategy : ConflictStrategy
  create_backup : Bool
  custom_name : Option String
deriving DecidableEq, Repr

/-- One entry of a generated plan, following the `OperationStep` interface of
the front-end store (type, source, target, per-operation resolution). -/
structure PlanStep where
  op_type : String
  source_path : String
  target_path : String
  resolution : String
deriving DecidableEq, Repr

/-- Modelled from the spec: the `OrganizationPlan` of spec section 3: source
and computed target path, ordered operations, conflict count and safety
warnings; field names follow the `OrganizePreviewResponse` interface. -/
structure OrganizationPlan where
  source_path : String
  target_path : String
  operations : List PlanStep
  conflicts_found : ℕ
  safety_warnings : List String
deriving DecidableEq, Repr

/-- Errors of the `preview` operation, spec sections 4.5 and 7. -/
inductive PlanError where
  | invalidTargetRoot
  | categoryNotRecognized
deriving DecidableEq, Repr

/-- Resolved project name, spec section 4.5: custom name, else suggested
name, else sanitized source directory name. -/
def resolvedName (sr : ScanResult) (cls : Classification) (opts : PlanOptions) :
    String :=
  opts.custom_name.getD (cls.suggested_name.getD (sanitizeName (lastComponent sr.path)))

/-- Resolved category: the explicit override, else the final classification's
category. -/
def resolvedCategory (cls : Classification) (opts : PlanOptions) : String :=
  opts.category_override.getD cls.category

/-- Computed destination path before conflict resolution, spec section 4.5:
target root, joined with the category path, joined with the resolved name. -/
def destPath (sr : ScanResult) (cls : Classification) (targetRoot : String)
    (opts : PlanOptions) : String :=
  targetRoot ++ "/" ++ resolvedCategory cls opts ++ "/" ++ resolvedName sr cls opts

/-- Full paths of every ancestor directory between the target root and the
final destination's parent (one per category segment). -/
def ancestorPaths (root : String) (cat : String) : List String :=
  (List.range (splitSlash cat).length).map
    (fun k => root ++ "/" ++ joinSlash ((splitSlash cat).take (k + 1)))

/-- Modelled from the spec: the Plan Generator of spec section 4.5.
`existing` is the read-only existence oracle over the target tree.  The
target root must exist, the category must be in the taxonomy.  A destination
that already exists counts as one conflict and is resolved per strategy:
`rename` picks the first free numeric suffix, `skip` keeps the operation
listed as a no-op, `overwrite` keeps the path and escalates a safety
warning.  Directory-creation steps are synthesized for every missing
ancestor.  No filesystem side effects. -/
def generatePlan (existing : List String) (sr : ScanResult)
    (cls : Classification) (targetRoot : String) (opts : PlanOptions) :
    Except PlanError OrganizationPlan :=
  if targetRoot ∈ existing then
    let category := resolvedCategory cls opts
    if category ∈ taxonomy then
      let dest := destPath sr cls targetRoot opts
      if dest ∈ existing then
        let target :=
          match opts.conflict_strategy with
          | .rename => findFreeName existing dest
          | _ => dest
        .ok { source_path := sr.path, target_path := target,
              operations :=
                ((ancestorPaths targetRoot category).filterMap fun p =>
                  if p ∈ existing then none
                  else some { op_type := "create_directory", source_path := p,
                              target_path := p, resolution := "none" }) ++
                [{ op_type := "move_directory", source_path := sr.path,
                   target_path := target,
                   resolution := strategyName opts.conflict_strategy }],
              conflicts_found := 1,
              safety_warnings :=
                if opts.conflict_strategy = .overwrite then
                  ["overwrite of existing target " ++ dest]
                else [] }
      else
        .ok { source_path := sr.path, target_path := dest,
              operations :=
                ((ancestorPaths targetRoot category).filterMap fun p =>
                  if p ∈ existing then none
                  else some { op_type := "create_directory", source_path := p,
                              target_path := p, resolution := "none" }) ++
                [{ op_type := "move_directory", source_path := sr.path,
                   target_path := dest, resolution := "none" }],
              conflicts_found := 0,
              safety_warnings := [] }
    else .error .categoryNotRecognized
  else .error .invalidTargetRoot

/-! ## Front-end store (`appStore`, bundled in `ErrorModal.vue`)

These definitions are embedded from the TypeScript source, not modelled from
the spec.  Notification ids and timestamps come from the runtime clock and
are not modelled; a notification is its type and message, and
`addNotification` unshifts it onto the list. -/

/-- One entry of the store's notification list. -/
structure StoreNotification where
  ntype : String
  message : String
deriving DecidableEq, Repr

/-- The `AppSettings` interface of the store. -/
structure AppSettings where
  organization_root : String
  default_ai_model : String
  create_backup_by_default : Bool
  use_ai_by_default : Bool
  conflict_resolution_strategy : String
  ollama_base_url : String
  python_backend_port : ℕ
  auto_start_backend : Bool
deriving DecidableEq, Repr

/-- The `OrganizeExecuteResponse` interface of the store (the optional
progress URL is omitted; it plays no role in the store logic). -/
structure OrganizeExecuteResponse where
  operation_id : String
  plan_id : String
  status : String
  message : String
  rollback_manifest : Option String
  timestamp : String
deriving DecidableEq, Repr

/-- The store state touched by `executeOrganization`: current scan, current
organization plan, loading flag, error, and notifications. -/
structure AppState where
  currentScan : Option ScanOutcome
  currentOrganizationPlan : Option OrganizationPlan
  isLoading : Bool
  error : Option String
  notifications : List StoreNotification
deriving DecidableEq, Repr

/-- The store action `executeOrganization` (appStore, lines 544-573 of the
bundled source).  The Tauri `invoke` outcome is passed in as data: `.ok` a
response or `.error` a message.  The action sets loading, clears the error,
then on a response with status `completed` notifies success and clears both
`currentScan` and `currentOrganizationPlan`; on status `failed` it only
notifies the failure; on an invoke rejection it records the error message and
rethrows.  Loading is reset in every path. -/
def executeOrganization (st : AppState)
    (invokeResult : Except String OrganizeExecuteResponse) :
    AppState × Except String OrganizeExecuteResponse :=
  let st1 : AppState := { st with isLoading := true, error := none }
  match invokeResult with
  | .ok result =>
    let st2 : AppState :=
      if result.status = "completed" then
        { st1 with
          notifications :=
            { ntype := "success", message := "Organization completed successfully!" }
              :: st1.notifications,
          currentScan := none, currentOrganizationPlan := none }
      else if result.status = "failed" then
        { st1 with
          notifications :=
            { ntype := "error", message := "Organization failed: " ++ result.message }
              :: st1.notifications }
      else st1
    ({ st2 with isLoading := false }, .ok result)
  | .error e =>
    ({ st1 with error := some e,
                notifications := { ntype := "error", message := e } :: st1.notifications,
                isLoading := false },
     .error e)

/-- JavaScript `a || d` for an optional string `a`: the empty string and an
absent value are falsy and fall through to `d`. -/
def jsOrString (a : Option String) (d : String) : String :=
  match a with
  | some s => if s = "" then d else s
  | none => d

/-- Arguments the store action `previewOrganization` passes to the
`preview_organization` invoke call. -/
structure PreviewInvokeArgs where
  scanId : String
  targetCategory : Option String
  conflictResolution : String
  createBackup : Bool
  customName : Option String
deriving DecidableEq, Repr

/-- Argument computation of the store action `previewOrganization` (appStore,
lines 511-542 of the bundled source): the conflict strategy is
`conflictResolution || settings.value?.conflict_resolution_strategy ||
'rename'` and the backup flag is `createBackup ??
settings.value?.create_backup_by_default ?? true`. -/
def previewInvokeArgs (settings : Option AppSettings) (scanId : String)
    (targetCategory : Option String) (conflictResolution : Option String)
    (createBackup : Option Bool) (customName : Option String) :
    PreviewInvokeArgs :=
  { scanId := scanId,
    targetCategory := targetCategory,
    conflictResolution :=
      jsOrString conflictResolution
        (jsOrString (settings.map fun s => s.conflict_resolution_strategy) "rename"),
    createBackup :=
      createBackup.getD ((settings.map fun s => s.create_backup_by_default).getD true),
    customName := customName }

/-- Initial value of the `conflictResolution` form field of
`OrganizationSettings.vue` (line 140). -/
def formDefaultConflictResolution : String := "rename"

/-- Initial value of the `createBackup` form field of
`OrganizationSettings.vue` (line 141). -/
def formDefaultCreateBackup : Bool := true

/-! ## `formatBytes` of `OrganizationPreview.vue` -/

/-- The unit table of `formatBytes` (`OrganizationPreview.vue`, line 162). -/
def formatBytesSizes : List String := ["B", "KB", "MB", "GB"]

/-- Result of `formatBytes`, split into the numeric part and the unit part of
the rendered string.  A `none` unit corresponds to the out-of-range index
access `sizes[i]`, which in JavaScript renders as the text `undefined`. -/
structure ByteFormat where
  amount : ℚ
  unit : Option String
deriving DecidableEq, Repr

/-- The `formatBytes` helper of `OrganizationPreview.vue` (lines 158-166).
Zero maps to `0 B`; otherwise the unit index is the floor of the base-1024
logarithm of the byte count (floating-point `Math.log` idealised as the exact
`Nat.log`) and the amount is the byte count scaled by that power of 1024
(the one-decimal rounding of the source is not modelled). -/
def formatBytes (bytes : ℕ) : ByteFormat :=
  if bytes = 0 then { amount := 0, unit := some "B" }
  else
    { amount := (bytes : ℚ) / (1024 : ℚ) ^ (Nat.log 1024 bytes),
      unit := formatBytesSizes[Nat.log 1024 bytes]? }

/-! ## Helper lemmas -/

/-- The Heuristic Classifier tags every result with method `heuristic`,
whichever rule fired. -/
theorem heuristicClassify_method (sr : ScanResult) :
    (heuristicClassify sr).method = Method.heuristic := by
  unfold heuristicClassify
  repeat' split
  all_goals rfl

/-! ## C4: the Arbiter never raises confidence above its inputs -/

/-- C4: for every heuristic classification and optional model classification,
the Arbiter's output confidence is at most the maximum of the two input
confidences (at most the heuristic confidence when the model result is
absent, since the default of the map is then the heuristic confidence). -/
theorem arbiter_confidence_le_max (t : ℚ) (h : Classification)
    (m : Option Classification) :
    (arbiter t h m).confidence ≤
      max h.confidence ((m.map Classification.confidence).getD h.confidence) := by
  cases m with
  | none => simp [arbiter]
  | some mc =>
    simp only [arbiter, Option.map_some', Option.getD_some]
    split
    · exact le_max_right _ _
    · exact le_max_left _ _

/-! ## C9: previewOrganization defaults -/

/-- C9: when `previewOrganization` is called with `conflictResolution`
undefined and no loaded settings, the invoke arguments carry conflict
strategy `rename`, and backup `true` when `createBackup` is undefined — the
same values the organization-settings form starts from. -/
theorem previewOrganization_default_args (scanId : String)
    (targetCategory customName : Option String) :
    (previewInvokeArgs none scanId targetCategory none none customName).conflictResolution
        = formDefaultConflictResolution ∧
    (previewInvokeArgs none scanId targetCategory none none customName).createBackup
        = formDefaultCreateBackup ∧
    formDefaultConflictResolution = "rename" ∧ formDefaultCreateBackup = true :=
  ⟨rfl, rfl, rfl, rfl⟩

/-! ## C10: formatBytes unit suffixes -/

/-- C10 counterexample: at one tebibyte (1024 ^ 4 bytes) the unit index is 4,
past the end of the `['B','KB','MB','GB']` table, so the rendered unit is the
out-of-range access (JavaScript `undefined`), not one of the four listed
suffixes.  The claim as stated over every non-negative byte count is false. -/
theorem formatBytes_unit_undefined_at_tebibyte :
    (formatBytes (1024 ^ 4)).unit = none := by
  have h4 : Nat.log 1024 (1024 ^ 4) = 4 := Nat.log_pow (by norm_num) 4
  have hne : (1024 : ℕ) ^ 4 ≠ 0 := by norm_num
  unfold formatBytes
  rw [if_neg hne, h4]
  rfl

/-- C10 amended: for every byte count below 1024 ^ 4, `formatBytes` renders a
number followed by one of the unit suffixes B, KB, MB or GB (zero maps to
`0 B`). -/
theorem formatBytes_unit_mem_of_lt (b : ℕ) (hb : b < 1024 ^ 4) :
    ∃ u, (formatBytes b).unit = some u ∧ u ∈ formatBytesSizes := by
  by_cases h0 : b = 0
  · exact ⟨"B", by simp [formatBytes, h0], by simp [formatBytesSizes]⟩
  · have hlog : Nat.log 1024 b < 4 := Nat.log_lt_of_lt_pow h0 hb
    have hlen : Nat.log 1024 b < formatBytesSizes.length := by
      simpa [formatBytesSizes] using hlog
    refine ⟨formatBytesSizes[Nat.log 1024 b], ?_, List.getElem_mem hlen⟩
    simp [formatBytes, h0, List.getElem?_eq_getElem hlen]

/-- Witness for the amended C10 at 5000 bytes. -/
theorem formatBytes_unit_mem_witness :
    5000 < 1024 ^ 4 ∧ ∃ u, (formatBytes 5000).unit = some u ∧ u ∈ formatBytesSizes :=
  ⟨by norm_num, formatBytes_unit_mem_of_lt 5000 (by norm_num)⟩

/-! ## C8: executeOrganization store effects -/

/-- C8: when the execute invoke resolves with status `completed`, the store
clears both `currentScan` and `currentOrganizationPlan`; when it resolves
with status `failed`, both fields keep their previous values. -/
theorem executeOrganization_scan_plan_effects (st : AppState)
    (r : OrganizeExecuteResponse) :
    (r.status = "completed" →
      (executeOrganization st (.ok r)).1.currentScan = none ∧
      (executeOrganization st (.ok r)).1.currentOrganizationPlan = none) ∧
    (r.status = "failed" →
      (executeOrganization st (.ok r)).1.currentScan = st.currentScan ∧
      (executeOrganization st (.ok r)).1.currentOrganizationPlan
        = st.currentOrganizationPlan) := by
  constructor
  · intro h
    simp [executeOrganization, h]
  · intro h
    have hne : r.status ≠ "completed" := by simp [h]
    simp [executeOrganization, h, hne]

/-- An example plan value for the witness states. -/
def examplePlan : OrganizationPlan :=
  { source_path := "/scan/proj", target_path := "/root/Misc/proj",
    operations := [], conflicts_found := 0, safety_warnings := [] }

/-- An example store state holding a current plan. -/
def exampleAppState : AppState :=
  { currentScan := none, currentOrganizationPlan := some examplePlan,
    isLoading := false, error := none, notifications := [] }

/-- An example completed execute response. -/
def exampleCompleted : OrganizeExecuteResponse :=
  { operation_id := "op-1", plan_id := "plan-1", status := "completed",
    message := "done", rollback_manifest := none, timestamp := "t0" }

/-- An example failed execute response. -/
def exampleFailed : OrganizeExecuteResponse :=
  { operation_id := "op-2", plan_id := "plan-1", status := "failed",
    message := "copy verification failed", rollback_manifest := some "m0",
    timestamp := "t1" }

/-- Witness for C8 on concrete store states and responses. -/
theorem executeOrganization_scan_plan_effects_witness :
    ((executeOrganization exampleAppState (.ok exampleCompleted)).1.currentScan = none ∧
     (executeOrganization exampleAppState (.ok exampleCompleted)).1.currentOrganizationPlan
       = none) ∧
    ((executeOrganization exampleAppState (.ok exampleFailed)).1.currentScan
       = exampleAppState.currentScan ∧
     (executeOrganization exampleAppState (.ok exampleFailed)).1.currentOrganizationPlan
       = exampleAppState.currentOrganizationPlan) :=
  ⟨(executeOrganization_scan_plan_effects exampleAppState exampleCompleted).1 rfl,
   (executeOrganization_scan_plan_effects exampleAppState exampleFailed).2 rfl⟩

/-! ## C2: execute requires an explicit confirmation -/

/-- C2: every call of the `execute` operation whose confirm argument is
absent or false returns the confirmation error and leaves the entire system
state (filesystem and retained plans) unchanged. -/
theorem execute_requires_explicit_confirm (st : SysState) (planId : String)
    (confirm : Option Bool) (ok delOk : ℕ → Bool) (h : confirm ≠ some true) :
    executeApi st planId confirm ok delOk
      = (.error .confirmationRequired, st) := by
  match confirm with
  | none => rfl
  | some false => rfl
  | some true => exact absurd rfl h

/-- An example system state with one retained, unexecuted plan. -/
def exampleSysState : SysState :=
  { fs := [("/scan/proj", 7)],
    plans := [("plan-1", { ops := [{ src := "/scan/proj", tgt := "/root/Misc/proj" }],
                           executed := false })] }

/-- Witness for C2: an absent confirm argument is rejected without side
effects on a concrete system state. -/
theorem execute_requires_explicit_confirm_witness :
    (none : Option Bool) ≠ some true ∧
    executeApi exampleSysState "plan-1" none (fun _ => true) (fun _ => true)
      = (.error .confirmationRequired, exampleSysState) :=
  ⟨by simp,
   execute_requires_explicit_confirm exampleSysState "plan-1" none
     (fun _ => true) (fun _ => true) (by simp)⟩

/-! ## C3: model failures never fail a scan -/

/-- C3: when the Model Classifier fails with a transient error (timeout or
unavailable), the scan still returns a complete result whose final
classification is the heuristic result with method `heuristic`, and no error
is propagated to the caller of `scan`. -/
theorem scan_recovers_model_failure (sr : ScanResult) (e : ModelError)
    (h : e = .inferenceTimeout ∨ e = .inferenceUnavailable) :
    ∃ out, scanOp (.ok sr) (.failed e) = .ok out ∧
      out.final_classification = heuristicClassify sr ∧
      out.final_classification.method = Method.heuristic := by
  refine ⟨classifyStage sr (.failed e), rfl, rfl, ?_⟩
  exact heuristicClassify_method sr

/-- An example scan snapshot: three script files, one readme, no markers. -/
def exampleScan : ScanResult :=
  { path := "/scan/tool", total_files := 4, total_directories := 1,
    file_extensions := [("py", 3), ("md", 1)], key_files := [],
    readme_excerpt := "a small tool", partial_result := false }

/-- Witness for C3: the scan result survives a concrete inference timeout. -/
theorem scan_recovers_model_failure_witness :
    (ModelError.inferenceTimeout = ModelError.inferenceTimeout ∨
      ModelError.inferenceTimeout = ModelError.inferenceUnavailable) ∧
    ∃ out, scanOp (.ok exampleScan) (.failed .inferenceTimeout) = .ok out ∧
      out.final_classification = heuristicClassify exampleScan ∧
      out.final_classification.method = Method.heuristic :=
  ⟨Or.inl rfl, scan_recovers_model_failure exampleScan .inferenceTimeout (Or.inl rfl)⟩

/-! ## C5: single-marker heuristic classification, totality -/

/-- C5: the Heuristic Classifier is total — it returns a classification with
method `heuristic` (no model call) for every scan result — and whenever the
detected marker set is a single recognized marker and there is no readme, it
returns the category the marker table maps that marker to, with confidence at
least 0.8. -/
theorem heuristic_single_marker (sr : ScanResult) (m cat : String)
    (hm : sr.key_files = [m]) (hcat : lookupTable markerTable m = some cat)
    (hreadme : sr.readme_excerpt = "") :
    (∀ sr' : ScanResult, (heuristicClassify sr').method = Method.heuristic) ∧
    (heuristicClassify sr).category = cat ∧
    (8 : ℚ) / 10 ≤ (heuristicClassify sr).confidence := by
  refine ⟨heuristicClassify_method, ?_, ?_⟩
  · unfold heuristicClassify
    rw [hm]
    simp [List.filterMap, hcat]
  · unfold heuristicClassify
    rw [hm]
    simp [List.filterMap, hcat]
    norm_num

/-- An example scan snapshot whose only detected marker is a single
recognized web-frontend package manifest, with no readme. -/
def exampleFrontendScan : ScanResult :=
  { path := "/scan/webapp", total_files := 5, total_directories := 2,
    file_extensions := [("js", 4), ("json", 1)], key_files := ["package.json"],
    readme_excerpt := "", partial_result := false }

/-- Witness for C5 on a concrete single-marker scan. -/
theorem heuristic_single_marker_witness :
    exampleFrontendScan.key_files = ["package.json"] ∧
    lookupTable markerTable "package.json" = some "Web/Frontend" ∧
    exampleFrontendScan.readme_excerpt = "" ∧
    ((∀ sr' : ScanResult, (heuristicClassify sr').method = Method.heuristic) ∧
      (heuristicClassify exampleFrontendScan).category = "Web/Frontend" ∧
      (8 : ℚ) / 10 ≤ (heuristicClassify exampleFrontendScan).confidence) :=
  ⟨rfl, rfl, rfl,
   heuristic_single_marker exampleFrontendScan "package.json" "Web/Frontend" rfl rfl rfl⟩

/-! ## C7: histogram counts sum to the file count -/

/-- Bumping a histogram key adds exactly one to the total count. -/
theorem histSum_bumpHist (h : List (String × ℕ)) (key : String) :
    histSum (bumpHist h key) = histSum h + 1 := by
  induction h with
  | nil => rfl
  | cons e rest ih =>
    by_cases hk : e.1 = key
    · simp [bumpHist, hk, histSum]
      omega
    · simp [bumpHist, hk, histSum] at ih ⊢
      omega

/-- C7: for every scan result the Scanner produces, the sum of the occurrence
counts in the file-extension histogram equals the total file count. -/
theorem scan_histogram_sums_to_file_count (root : String)
    (entries : List FileEntry) (readme : String) (isPartial : Bool) :
    histSum (scanEntries root entries readme isPartial).file_extensions
      = (scanEntries root entries readme isPartial).total_files := by
  induction entries with
  | nil => rfl
  | cons e rest ih =>
    by_cases hd : e.isDir
    · simpa [scanEntries, hd] using ih
    · simp [scanEntries, hd, histSum_bumpHist, ih]

/-! ## C6: rename conflict resolution -/

/-- Digit rendering round-trips for digits below ten. -/
theorem digitVal_digitChar (d : ℕ) (hd : d < 10) :
    digitVal (digitChar d) = d := by
  interval_cases d <;> rfl

/-- The fueled digit expansion round-trips whenever the fuel covers the
number. -/
theorem digitsVal_digitsRevFuel (fuel : ℕ) :
    ∀ n : ℕ, n ≤ fuel → digitsVal (digitsRevFuel fuel n) = n := by
  induction fuel with
  | zero => intro n hn; interval_cases n; rfl
  | succ fuel ih =>
    intro n hn
    by_cases h0 : n = 0
    · simp [digitsRevFuel, h0, digitsVal]
    · have hdiv : n / 10 ≤ fuel := by
        have := Nat.div_lt_self (Nat.pos_of_ne_zero h0) (by norm_num : 1 < 10)
        omega
      simp only [digitsRevFuel, h0, if_false, digitsVal]
      rw [digitVal_digitChar _ (Nat.mod_lt _ (by norm_num)), ih _ hdiv]
      omega

/-- Decimal rendering round-trips. -/
theorem decodeStr_natToStr (n : ℕ) : decodeStr (natToStr n) = n := by
  by_cases h0 : n = 0
  · simp [natToStr, h0, decodeStr, digitsVal, digitVal]
  · simp only [natToStr, h0, if_false, decodeStr]
    show digitsVal (digitsRevFuel n n).reverse.reverse = n
    rw [List.reverse_reverse]
    exact digitsVal_digitsRevFuel n n le_rfl

/-- Decimal rendering is injective. -/
theorem natToStr_injective : Function.Injective natToStr := by
  intro a b h
  rw [← decodeStr_natToStr a, ← decodeStr_natToStr b, h]

/-- Suffixed names with a fixed base are injective in the suffix. -/
theorem suffixName_injective (base : String) :
    Function.Injective (suffixName base) := by
  intro a b h
  apply natToStr_injective
  apply String.ext
  have hd := congrArg String.data h
  simp only [suffixName, String.data_append] at hd
  exact List.append_cancel_left hd

/-- Pigeonhole: among the first `length existing + 1` numeric suffixes of any
base there is one whose suffixed name is not in `existing`. -/
theorem exists_free_suffix (existing : List String) (base : String) :
    ∃ i ∈ List.range' 1 (existing.length + 1), suffixName base i ∉ existing := by
  by_contra hall
  push_neg at hall
  have hnd : ((List.range' 1 (existing.length + 1)).map (suffixName base)).Nodup :=
    (List.nodup_range' 1 (existing.length + 1)).map (suffixName_injective base)
  have hsub : ((List.range' 1 (existing.length + 1)).map (suffixName base)) ⊆ existing := by
    intro x hx
    obtain ⟨i, hi, rfl⟩ := List.mem_map.mp hx
    exact hall i hi
  have := (hnd.subperm hsub).length_le
  simp [List.length_map, List.length_range'] at this

/-- The name chosen by `findFreeName` carries a numeric suffix of at least 1
and does not yet exist in the target tree. -/
theorem findFreeName_spec (existing : List String) (base : String) :
    (∃ i, 1 ≤ i ∧ findFreeName existing base = suffixName base i) ∧
    findFreeName existing base ∉ existing := by
  obtain ⟨i, hi, hfree⟩ := exists_free_suffix existing base
  have hsome : ((List.range' 1 (existing.length + 1)).find?
      (fun j => decide (suffixName base j ∉ existing))).isSome := by
    rw [List.find?_isSome]
    exact ⟨i, hi, by simpa using hfree⟩
  obtain ⟨j, hj⟩ := Option.isSome_iff_exists.mp hsome
  have hjmem := List.mem_of_find?_eq_some hj
  have hjp := List.find?_some hj
  have hj1 : 1 ≤ j := by
    rw [List.mem_range'] at hjmem
    omega
  have hjfree : suffixName base j ∉ existing := by simpa using hjp
  unfold findFreeName
  rw [hj]
  exact ⟨⟨j, hj1, rfl⟩, hjfree⟩

/-- C6: for every preview whose computed destination already exists under the
target root, strategy `rename` yields a plan whose target path is the
destination with a numeric suffix (at least `-1`) chosen so that the suffixed
name does not yet exist, and the plan counts exactly one conflict for the
single collision. -/
theorem preview_rename_conflict (existing : List String) (sr : ScanResult)
    (cls : Classification) (targetRoot : String) (opts : PlanOptions)
    (hroot : targetRoot ∈ existing)
    (hcat : resolvedCategory cls opts ∈ taxonomy)
    (hstrat : opts.conflict_strategy = .rename)
    (hconf : destPath sr cls targetRoot opts ∈ existing) :
    ∃ plan, generatePlan existing sr cls targetRoot opts = .ok plan ∧
      plan.conflicts_found = 1 ∧
      (∃ i, 1 ≤ i ∧
        plan.target_path = suffixName (destPath sr cls targetRoot opts) i) ∧
      plan.target_path ∉ existing := by
  unfold generatePlan
  rw [if_pos hroot, if_pos hcat, if_pos hconf, hstrat]
  refine ⟨_, rfl, rfl, ?_, ?_⟩
  · exact (findFreeName_spec existing (destPath sr cls targetRoot opts)).1
  · exact (findFreeName_spec existing (destPath sr cls targetRoot opts)).2

/-- An example scan snapshot used by the preview witness. -/
def examplePreviewScan : ScanResult :=
  { path := "/scan/webapp", total_files := 5, total_directories := 2,
    file_extensions := [("js", 5)], key_files := ["package.json"],
    readme_excerpt := "demo", partial_result := false }

/-- An example final classification for the preview witness. -/
def examplePreviewCls : Classification :=
  { category := "Web/Frontend", confidence := 9 / 10, reasoning := "r",
    method := .model, suggested_name := none }

/-- An example preview option set with strategy rename and a custom name. -/
def examplePreviewOpts : PlanOptions :=
  { category_override := none, conflict_strategy := .rename,
    create_backup := true, custom_name := some "proj" }

/-- Existing paths of the example target tree: the root and a colliding
destination. -/
def exampleExisting : List String := ["/root", "/root/Web/Frontend/proj"]

/-- Witness for C6 on a concrete colliding preview. -/
theorem preview_rename_conflict_witness :
    "/root" ∈ exampleExisting ∧
    resolvedCategory examplePreviewCls examplePreviewOpts ∈ taxonomy ∧
    examplePreviewOpts.conflict_strategy = .rename ∧
    destPath examplePreviewScan examplePreviewCls "/root" examplePreviewOpts
      ∈ exampleExisting ∧
    (∃ plan, generatePlan exampleExisting examplePreviewScan examplePreviewCls
        "/root" examplePreviewOpts = .ok plan ∧
      plan.conflicts_found = 1 ∧
      (∃ i, 1 ≤ i ∧ plan.target_path
        = suffixName (destPath examplePreviewScan examplePreviewCls "/root"
            examplePreviewOpts) i) ∧
      plan.target_path ∉ exampleExisting) :=
  ⟨by decide, by decide, rfl, by decide,
   preview_rename_conflict exampleExisting examplePreviewScan examplePreviewCls
     "/root" examplePreviewOpts (by decide) (by decide) rfl (by decide)⟩

/-! ## C1: two-pass executor safety -/

/-- Finding the path just written. -/
theorem find_set_eq (fs : FS) (p : String) (c : ℕ) :
    FS.find (FS.set fs p c) p = some c := by
  simp [FS.set, FS.find]

/-- Writing one path does not change any other path. -/
theorem find_set_ne (fs : FS) (p q : String) (c : ℕ) (h : p ≠ q) :
    FS.find (FS.set fs p c) q = FS.find fs q := by
  simp [FS.set, FS.find, h]

/-- Deleting one path does not change any other path. -/
theorem find_del_ne (fs : FS) (p q : String) (h : p ≠ q) :
    FS.find (FS.del fs p) q = FS.find fs q := by
  induction fs with
  | nil => rfl
  | cons e fs ih =>
    by_cases he : e.1 = p
    · have hq : e.1 ≠ q := by rw [he]; exact h
      simp [FS.del, FS.find, he, hq, ih, h]
    · by_cases heq : e.1 = q <;>
        simp [FS.del, FS.find, he, heq, ih, h, Ne.symm h]

/-- Deleting a sequence of targets touches no other path, at every
intermediate state and at the final state. -/
theorem delTargets_preserve (l : List ExecOp) :
    ∀ (fs : FS) (p : String), (∀ o ∈ l, o.tgt ≠ p) →
    (∀ fs' ∈ delTargetsTrace fs l, FS.find fs' p = FS.find fs p) ∧
    FS.find ((delTargetsTrace fs l).getLastD fs) p = FS.find fs p := by
  induction l with
  | nil =>
    intro fs p _
    exact ⟨fun fs' h => absurd h (List.not_mem_nil fs'), rfl⟩
  | cons o rest ih =>
    intro fs p h
    have hop : o.tgt ≠ p := h o (List.mem_cons_self o rest)
    have h1 : FS.find (FS.del fs o.tgt) p = FS.find fs p := find_del_ne fs o.tgt p hop
    obtain ⟨iha, ihb⟩ := ih (FS.del fs o.tgt) p
      (fun o' ho' => h o' (List.mem_cons_of_mem o ho'))
    constructor
    · intro fs' hfs'
      simp only [delTargetsTrace, List.mem_cons] at hfs'
      rcases hfs' with rfl | hfs'
      · exact h1
      · rw [iha fs' hfs', h1]
    · simp only [delTargetsTrace, List.getLastD_cons]
      rw [ihb, h1]

/-- Pass one never changes a path that is not among the targets of the
pending or completed operations: each intermediate state (copies and rollback
steps) and the resulting state agree with the starting state there.  In
particular no source path of a well-formed plan is ever touched by pass one,
whether it fails or not. -/
theorem copyPass_preserve (ok : ℕ → Bool) (rest : List ExecOp) :
    ∀ (fs : FS) (i : ℕ) (done : List ExecOp) (p : String),
    (∀ o ∈ rest, o.tgt ≠ p) → (∀ o ∈ done, o.tgt ≠ p) →
    (∀ fs' ∈ copyTrace ok fs rest i done, FS.find fs' p = FS.find fs p) ∧
    FS.find (copyPass ok fs rest i done).1 p = FS.find fs p := by
  induction rest with
  | nil =>
    intro fs i done p _ _
    exact ⟨fun fs' h => absurd h (List.not_mem_nil fs'), rfl⟩
  | cons op rest ih =>
    intro fs i done p hrest hdone
    have hop : op.tgt ≠ p := hrest op (List.mem_cons_self op rest)
    have hrest' : ∀ o ∈ rest, o.tgt ≠ p :=
      fun o ho => hrest o (List.mem_cons_of_mem op ho)
    have hdonerev : ∀ o ∈ done.reverse, o.tgt ≠ p :=
      fun o ho => hdone o (List.mem_reverse.mp ho)
    rcases hfind : FS.find fs op.src with _ | c
    · constructor
      · intro fs' hfs'
        cases hok : ok i <;>
          simp only [copyTrace, hfind, hok] at hfs' <;>
          exact (delTargets_preserve done.reverse fs p hdonerev).1 fs' hfs'
      · cases hok : ok i <;>
          simp only [copyPass, hfind, hok, rollback] <;>
          exact (delTargets_preserve done.reverse fs p hdonerev).2
    · cases hok : ok i
      · constructor
        · intro fs' hfs'
          simp only [copyTrace, hfind, hok] at hfs'
          exact (delTargets_preserve done.reverse fs p hdonerev).1 fs' hfs'
        · simp only [copyPass, hfind, hok, rollback]
          exact (delTargets_preserve done.reverse fs p hdonerev).2
      · have hset : FS.find (FS.set fs op.tgt c) p = FS.find fs p :=
          find_set_ne fs op.tgt p c hop
        have hdone' : ∀ o ∈ done ++ [op], o.tgt ≠ p := by
          intro o ho
          rcases List.mem_append.mp ho with h1 | h1
          · exact hdone o h1
          · rw [List.mem_singleton.mp h1]; exact hop
        obtain ⟨iha, ihb⟩ := ih (FS.set fs op.tgt c) (i + 1) (done ++ [op]) p hrest' hdone'
        constructor
        · intro fs' hfs'
          simp only [copyTrace, hfind, hok, List.mem_cons] at hfs'
          rcases hfs' with rfl | hfs'
          · exact hset
          · rw [iha fs' hfs', hset]
        · simp only [copyPass, hfind, hok]
          rw [ihb, hset]

/-- When pass one succeeds, it changes nothing outside the targets of its
pending operations (the rollback branch is never taken, so no hypothesis on
the already completed operations is needed). -/
theorem copyPass_success_preserve (ok : ℕ → Bool) (rest : List ExecOp) :
    ∀ (fs : FS) (i : ℕ) (done : List ExecOp) (p : String),
    (copyPass ok fs rest i done).2.2 = true →
    (∀ o ∈ rest, o.tgt ≠ p) →
    FS.find (copyPass ok fs rest i done).1 p = FS.find fs p := by
  induction rest with
  | nil => intro fs i done p _ _; rfl
  | cons op rest ih =>
    intro fs i done p hs hrest
    rcases hfind : FS.find fs op.src with _ | c
    · cases hok : ok i <;> simp [copyPass, hfind, hok] at hs
    · cases hok : ok i
      · simp [copyPass, hfind, hok] at hs
      · have heq : copyPass ok fs (op :: rest) i done
            = copyPass ok (FS.set fs op.tgt c) rest (i + 1) (done ++ [op]) := by
          simp only [copyPass, hfind, hok]
        have hs' : (copyPass ok (FS.set fs op.tgt c) rest (i + 1) (done ++ [op])).2.2
            = true := by rw [← heq]; exact hs
        rw [heq, ih (FS.set fs op.tgt c) (i + 1) (done ++ [op]) p hs'
          (fun o ho => hrest o (List.mem_cons_of_mem op ho))]
        exact find_set_ne fs op.tgt p c (hrest op (List.mem_cons_self op rest))

/-- When pass one succeeds, every operation's source was present at the start
and its content now also sits at the operation's target (for plans whose
targets avoid all sources and are pairwise distinct). -/
theorem copyPass_copies (ok : ℕ → Bool) (rest : List ExecOp) :
    ∀ (fs : FS) (i : ℕ) (done : List ExecOp),
    (copyPass ok fs rest i done).2.2 = true →
    (∀ o ∈ rest, ∀ o' ∈ rest, o.tgt ≠ o'.src) →
    (rest.map ExecOp.tgt).Nodup →
    ∀ op ∈ rest, ∃ c, FS.find fs op.src = some c ∧
      FS.find (copyPass ok fs rest i done).1 op.tgt = some c := by
  induction rest with
  | nil => intro _ _ _ _ _ _ op hop; exact absurd hop (List.not_mem_nil op)
  | cons op rest ih =>
    intro fs i done hs hdisj hnd op' hop'
    rcases hfind : FS.find fs op.src with _ | c
    · cases hok : ok i <;> simp [copyPass, hfind, hok] at hs
    · cases hok : ok i
      · simp [copyPass, hfind, hok] at hs
      · have heq : copyPass ok fs (op :: rest) i done
            = copyPass ok (FS.set fs op.tgt c) rest (i + 1) (done ++ [op]) := by
          simp only [copyPass, hfind, hok]
        have hs' : (copyPass ok (FS.set fs op.tgt c) rest (i + 1) (done ++ [op])).2.2
            = true := by rw [← heq]; exact hs
        have hnd' : (∀ x ∈ rest, ¬x.tgt = op.tgt) ∧ (rest.map ExecOp.tgt).Nodup := by
          simpa using hnd
        rcases List.mem_cons.mp hop' with rfl | hmem
        · refine ⟨c, hfind, ?_⟩
          rw [heq, copyPass_success_preserve ok rest _ _ _ op'.tgt hs' hnd'.1]
          exact find_set_eq fs op'.tgt c
        · have hdisj' : ∀ o ∈ rest, ∀ o'' ∈ rest, o.tgt ≠ o''.src :=
            fun o ho o'' ho'' =>
              hdisj o (List.mem_cons_of_mem op ho) o'' (List.mem_cons_of_mem op ho'')
          obtain ⟨c', h1, h2⟩ :=
            ih (FS.set fs op.tgt c) (i + 1) (done ++ [op]) hs' hdisj' hnd'.2 op' hmem
          refine ⟨c', ?_, ?_⟩
          · rw [← h1]
            exact (find_set_ne fs op.tgt op'.src c
              (hdisj op (List.mem_cons_self op rest) op'
                (List.mem_cons_of_mem op hmem))).symm
          · rw [heq]; exact h2

/-- Pass two never changes a path that is not among the sources of its
pending operations; in particular the copies at the targets survive any
pattern of deletion failures. -/
theorem deletePass_preserve (delOk : ℕ → Bool) (rest : List ExecOp) :
    ∀ (fs : FS) (i : ℕ) (p : String), (∀ o ∈ rest, o.src ≠ p) →
    FS.find (deletePass delOk fs rest i).1 p = FS.find fs p := by
  induction rest with
  | nil => intro fs i p _; rfl
  | cons op rest ih =>
    intro fs i p h
    cases hok : delOk i
    · simp only [deletePass, hok, Bool.false_eq_true, if_false]
      exact ih fs (i + 1) p (fun o ho => h o (List.mem_cons_of_mem op ho))
    · simp only [deletePass, hok, if_true]
      rw [ih (FS.del fs op.src) (i + 1) p (fun o ho => h o (List.mem_cons_of_mem op ho))]
      exact find_del_ne fs op.src p (h op (List.mem_cons_self op rest))

/-- C1: during execution of a well-formed plan (targets are disjoint from
sources and pairwise distinct), no state of the run is missing an originally
present source unless pass one has copy-verified every operation; a failing
pass one leaves every original source exactly as it was (rollback included);
and once pass one succeeded, a valid copy of every item sits at its target in
the final state, whatever deletions of pass two fail. -/
theorem executor_two_pass_safety (fs : FS) (ops : List ExecOp)
    (ok delOk : ℕ → Bool)
    (hdisj : ∀ o ∈ ops, ∀ o' ∈ ops, o.tgt ≠ o'.src)
    (hnodup : (ops.map ExecOp.tgt).Nodup) :
    (∀ fs' ∈ execTrace fs ops ok delOk, ∀ op ∈ ops,
        FS.find fs' op.src = none →
        FS.find fs op.src = none ∨ (copyPass ok fs ops 0 []).2.2 = true) ∧
    ((copyPass ok fs ops 0 []).2.2 = false →
      ∀ op ∈ ops,
        FS.find (executeOps fs ops ok delOk).1 op.src = FS.find fs op.src) ∧
    ((copyPass ok fs ops 0 []).2.2 = true →
      ∀ op ∈ ops, ∃ c, FS.find fs op.src = some c ∧
        FS.find (executeOps fs ops ok delOk).1 op.tgt = some c) := by
  refine ⟨?_, ?_, ?_⟩
  · intro fs' hfs' op hop hnone
    simp only [execTrace, List.mem_cons, List.mem_append] at hfs'
    rcases hfs' with (rfl | hfs') | hfs'
    · exact Or.inl hnone
    · left
      rw [← (copyPass_preserve ok ops fs 0 [] op.src
        (fun o ho => hdisj o ho op hop)
        (fun o ho => absurd ho (List.not_mem_nil o))).1 fs' hfs']
      exact hnone
    · cases hs : (copyPass ok fs ops 0 []).2.2
      · rw [hs] at hfs'
        simp at hfs'
      · exact Or.inr rfl
  · intro hfail op hop
    have hres : (executeOps fs ops ok delOk).1 = (copyPass ok fs ops 0 []).1 := by
      simp [executeOps, hfail]
    rw [hres]
    exact (copyPass_preserve ok ops fs 0 [] op.src
      (fun o ho => hdisj o ho op hop)
      (fun o ho => absurd ho (List.not_mem_nil o))).2
  · intro hsucc op hop
    obtain ⟨c, h1, h2⟩ := copyPass_copies ok ops fs 0 [] hsucc hdisj hnodup op hop
    refine ⟨c, h1, ?_⟩
    have hres : (executeOps fs ops ok delOk).1
        = (deletePass delOk (copyPass ok fs ops 0 []).1 ops 0).1 := by
      simp [executeOps, hsucc]
    rw [hres, deletePass_preserve delOk ops _ 0 op.tgt
      (fun o ho => (hdisj op hop o ho).symm)]
    exact h2

/-- Witness for C1 on a concrete two-operation plan where the delete of the
second source fails: hypotheses checked by evaluation, conclusion by the
theorem. -/
theorem executor_two_pass_safety_witness :
    (∀ o ∈ [ExecOp.mk "s/a" "t/a", ExecOp.mk "s/b" "t/b"],
      ∀ o' ∈ [ExecOp.mk "s/a" "t/a", ExecOp.mk "s/b" "t/b"], o.tgt ≠ o'.src) ∧
    ([ExecOp.mk "s/a" "t/a", ExecOp.mk "s/b" "t/b"].map ExecOp.tgt).Nodup ∧
    ((∀ fs' ∈ execTrace [("s/a", 10), ("s/b", 20)]
          [ExecOp.mk "s/a" "t/a", ExecOp.mk "s/b" "t/b"]
          (fun _ => true) (fun i => decide (i = 0)),
        ∀ op ∈ [ExecOp.mk "s/a" "t/a", ExecOp.mk "s/b" "t/b"],
        FS.find fs' op.src = none →
        FS.find [("s/a", 10), ("s/b", 20)] op.src = none ∨
          (copyPass (fun _ => true) [("s/a", 10), ("s/b", 20)]
            [ExecOp.mk "s/a" "t/a", ExecOp.mk "s/b" "t/b"] 0 []).2.2 = true) ∧
      ((copyPass (fun _ => true) [("s/a", 10), ("s/b", 20)]
          [ExecOp.mk "s/a" "t/a", ExecOp.mk "s/b" "t/b"] 0 []).2.2 = false →
        ∀ op ∈ [ExecOp.mk "s/a" "t/a", ExecOp.mk "s/b" "t/b"],
        FS.find (executeOps [("s/a", 10), ("s/b", 20)]
            [ExecOp.mk "s/a" "t/a", ExecOp.mk "s/b" "t/b"]
            (fun _ => true) (fun i => decide (i = 0))).1 op.src
          = FS.find [("s/a", 10), ("s/b", 20)] op.src) ∧
      ((copyPass (fun _ => true) [("s/a", 10), ("s/b", 20)]
          [ExecOp.mk "s/a" "t/a", ExecOp.mk "s/b" "t/b"] 0 []).2.2 = true →
        ∀ op ∈ [ExecOp.mk "s/a" "t/a", ExecOp.mk "s/b" "t/b"],
        ∃ c, FS.find [("s/a", 10), ("s/b", 20)] op.src = some c ∧
          FS.find (executeOps [("s/a", 10), ("s/b", 20)]
              [ExecOp.mk "s/a" "t/a", ExecOp.mk "s/b" "t/b"]
              (fun _ => true) (fun i => decide (i = 0))).1 op.tgt = some c)) :=
  ⟨by decide, by decide,
   executor_two_pass_safety [("s/a", 10), ("s/b", 20)]
     [ExecOp.mk "s/a" "t/a", ExecOp.mk "s/b" "t/b"]
     (fun _ => true) (fun i => decide (i = 0)) (by decide) (by decide)⟩

end DevSteward
